import Mathlib

/-!
Shallow embedding of the hand-eye calibration data-acquisition program
(`main.py` command-line version and `UI_QT.py` Qt version) together with
proofs about its session allocation, capture state machine, pose
recording, and calibration-invocation logic.

Conventions of the embedding:
* Directory listings are lists of entry names (`List String`); slicing and
  digit tests on names are carried out on `String.data`, the underlying
  character list, mirroring Python string slicing.  Names are assumed to
  be ASCII, so Python's `str.isdigit` coincides with `Char.isDigit`.
* The set of image files `{i}.jpg` present in a session directory is
  modelled as the `Finset ℕ` of their indices; the pose log is modelled
  by its line count (and, for the numerical claims, by the exact text of
  a recorded line over real arithmetic).
* Operator input strings are abstracted to their parse outcome: each
  whitespace token is `some q` if Python's `float` accepts it and `none`
  otherwise.
* Floating point double precision is modelled by exact real arithmetic;
  at the concrete inputs appearing below the double rounding error
  (≲ 1e-13 relative) is far smaller than the distance to any 6-decimal
  rounding boundary, so the formatted output is unaffected.
-/

namespace HandEyeCalib

/-! ### Session allocation: `get_next_save_dir` (main.py 59-82, UI_QT.py 107-136)

Both versions are line-for-line identical: scan `base_dir` for entries
`dir_name` with `dir_name.startswith(base_name)`,
`len(dir_name) == len(base_name) + 2` and `dir_name[-2:].isdigit()`;
collect `int(dir_name[-2:])`; next number is `max + 1` (or `1` when the
list is empty); the suffix is rendered with `f"{next_num:02d}"`. -/

/-- `base_name = f"data{today}"` where `today = datetime.now().strftime("%Y%m%d")`. -/
def baseNameFor (today : String) : String := "data" ++ today

/-- Python `f"{n:02d}"`: decimal digits padded with `0` to width at least 2. -/
def format02 (n : Nat) : String :=
  if n < 10 then "0" ++ toString n else toString n

/-- `dir_name[-2:]` — the final two characters of an entry name. -/
def lastTwo (d : String) : List Char := d.data.drop (d.data.length - 2)

/-- Python `int` on a string of ASCII digits. -/
def digitsToNat (cs : List Char) : Nat :=
  cs.foldl (fun n c => 10 * n + (c.toNat - '0'.toNat)) 0

/-- The filter applied to each entry of the base directory:
`dir_name.startswith(base_name) and len(dir_name) == len(base_name) + 2`
and `dir_name[-2:].isdigit()` (ASCII digits). -/
def isValidEntry (baseName d : String) : Bool :=
  baseName.data.isPrefixOf d.data &&
    d.data.length == baseName.data.length + 2 &&
    (lastTwo d).all Char.isDigit

/-- `int(dir_name[-2:])` for an entry accepted by the filter. -/
def suffixVal (d : String) : Nat := digitsToNat (lastTwo d)

/-- `existing_dirs` — the collected numeric suffixes of matching entries. -/
def existingNums (baseName : String) (entries : List String) : List Nat :=
  (entries.filter (fun d => isValidEntry baseName d)).map suffixVal

/-- `next_num = max(existing_dirs) + 1 if existing_dirs else 1`. -/
def nextNum (baseName : String) (entries : List String) : Nat :=
  if (existingNums baseName entries).isEmpty then 1
  else (existingNums baseName entries).foldl max 0 + 1

/-- The directory name returned by `get_next_save_dir`
(the path component `f"{base_name}{next_suffix}"`). -/
def get_next_save_dir (baseName : String) (entries : List String) : String :=
  baseName ++ format02 (nextNum baseName entries)

/-- `init_data_storage`: obtain the next name and create the directory
(`os.makedirs` is skipped when the directory already exists).  Returns the
session name together with the updated base-directory listing. -/
def allocate (baseName : String) (entries : List String) : String × List String :=
  let nm := get_next_save_dir baseName entries
  (nm, if entries.contains nm then entries else entries ++ [nm])

/-! ### Pose-input parsing (main.py 249-251, UI_QT.py 244-246)

`pose = list(map(float, pose_input.split()))` followed by the arity check
`len(pose) != 6`.  A token is `some q` when `float` accepts it. -/

/-- One whitespace-separated token, abstracted to its `float` parse outcome. -/
abbrev Token := Option ℚ

/-- `list(map(float, ...))`: fails (raises `ValueError`) if any token fails. -/
def parseTokens : List Token → Option (List ℚ)
  | [] => some []
  | t :: ts =>
    match t, parseTokens ts with
    | some q, some qs => some (q :: qs)
    | _, _ => none

/-- Full pose parse: all tokens must be numbers and there must be exactly 6. -/
def parsePose (ts : List Token) : Option (List ℚ) :=
  match parseTokens ts with
  | none => none
  | some qs => if qs.length = 6 then some qs else none

/-! ### The CLI command/capture state machine (main.py 147-275)

`start_capture`'s input loop together with `capture_data`'s inner pose
loop form a two-state machine: `AwaitingCommand` (the outer `while
self.running` loop at the command prompt) and `AwaitingPoseInput idx`
(the inner `while True` loop of `capture_data`, with a tentative image
already written at index `idx`).  The camera thread's published state is
read at each command step as the two booleans `frameAvailable`
(`self.frame is not None`) and `detected` (`self.detected_chessboard`).

In phase `AwaitingCommand` the operator's line is interpreted as a
command; in phase `AwaitingPoseInput` it is interpreted as pose text.  A
step that pairs a phase with an input of the other kind cannot occur in
the program and is modelled as a no-op. -/

inductive Phase
  | awaitingCommand
  | awaitingPoseInput (idx : Nat)
deriving DecidableEq

structure MachState where
  /-- indices `i` such that the file `{i}.jpg` exists in the session directory -/
  images : Finset Nat
  /-- number of lines of `poses.txt` -/
  poseCount : Nat
  /-- `self.capture_count` -/
  captureCount : Nat
  phase : Phase
  /-- `self.running` -/
  running : Bool
deriving DecidableEq

/-- State after `init_data_storage`: empty session directory apart from the
freshly truncated `poses.txt`, `capture_count = 0`, at the command prompt. -/
def initState : MachState := ⟨∅, 0, 0, .awaitingCommand, true⟩

/-- Operator input at the pose prompt of `capture_data`. -/
inductive PoseInput
  | cancel
  | empty
  | tokens (ts : List Token)
deriving DecidableEq

/-- Operator input at the command prompt of `start_capture`
(after `.strip()` and case folding). -/
inductive Command
  | capture | computeInHand | computeToHand | quit | status | invalid
deriving DecidableEq

inductive Input
  | cmd (c : Command)
  | pose (p : PoseInput)
deriving DecidableEq

structure StepInput where
  frameAvailable : Bool
  detected : Bool
  inp : Input
deriving DecidableEq

/-- Console reports relevant to the claims (other prints omitted). -/
inductive Report
  | errNoFrame | errNoChessboard | errParse
  | warnEmpty | cancelled | imageSaved | success
deriving DecidableEq

/-- One reaction of the CLI to one operator input line.
  * command `s`: rejected when no frame has been published yet, rejected
    when no chessboard is detected, otherwise the current frame is saved
    as `{capture_count}.jpg` and the pose prompt is entered;
  * command `i`/`o`: `compute_in_hand`/`compute_to_hand` touch neither
    the image files `{i}.jpg` nor `poses.txt` nor `capture_count`
    (they are modelled separately below);
  * empty command / invalid command: status print only;
  * pose `cancel`: the tentative image is deleted (`os.remove`), no pose
    line is written, `capture_count` is untouched, back to the prompt;
  * empty pose text: warning, ask again;
  * pose text that fails to parse as exactly 6 floats: error print, ask
    again — the tentative image is NOT deleted on this path;
  * pose text parsing to 6 floats: one line appended to `poses.txt`,
    `capture_count += 1`, back to the command prompt. -/
def cliStep (st : MachState) (i : StepInput) : MachState × Option Report :=
  if st.running = false then (st, none) else
  match st.phase, i.inp with
  | .awaitingCommand, .cmd c =>
    match c with
    | .quit => ({ st with running := false }, none)
    | .capture =>
      if i.frameAvailable = false then (st, some .errNoFrame)
      else if i.detected = false then (st, some .errNoChessboard)
      else ({ st with images := insert st.captureCount st.images,
                      phase := .awaitingPoseInput st.captureCount }, some .imageSaved)
    | _ => (st, none)
  | .awaitingPoseInput idx, .pose p =>
    match p with
    | .cancel =>
      ({ st with images := st.images.erase idx, phase := .awaitingCommand }, some .cancelled)
    | .empty => (st, some .warnEmpty)
    | .tokens ts =>
      match parsePose ts with
      | none => (st, some .errParse)
      | some _ =>
        ({ st with poseCount := st.poseCount + 1, captureCount := st.captureCount + 1,
                   phase := .awaitingCommand }, some .success)
  | _, _ => (st, none)

/-- Run the machine over a list of operator inputs. -/
def run (st : MachState) (is : List StepInput) : MachState :=
  is.foldl (fun s i => (cliStep s i).1) st

/-- A pose-prompt input that causes a re-prompt rather than ending the
inner loop: empty text, or text that does not parse as 6 numbers. -/
def isRetry : PoseInput → Bool
  | .cancel => false
  | .empty => true
  | .tokens ts => (parsePose ts).isNone

/-- The input segment of one successful capture: the `s` command issued
while a frame is published and the chessboard is detected, some retried
pose inputs, and finally a pose text parsing as 6 numbers. -/
def captureOp (retries : List PoseInput) (ts : List Token) : List StepInput :=
  ⟨true, true, .cmd .capture⟩ ::
    (retries ++ [PoseInput.tokens ts]).map (fun p => ⟨true, true, .pose p⟩)

/-- The session invariant: the pose log has exactly `capture_count` lines;
at the command prompt the image files are exactly `0.jpg..{capture_count-1}.jpg`,
and at the pose prompt additionally the tentative image `{capture_count}.jpg`
exists. -/
def Inv (st : MachState) : Prop :=
  st.poseCount = st.captureCount ∧
  match st.phase with
  | .awaitingCommand => st.images = Finset.range st.captureCount
  | .awaitingPoseInput idx =>
    idx = st.captureCount ∧ st.images = Finset.range (st.captureCount + 1)

/-! ### The Qt capture handler (UI_QT.py 216-274)

`capture_data` in the UI reads a frame itself, re-checks the chessboard,
writes the tentative image, and opens ONE pose dialog: on cancel/empty
the image is deleted and the handler returns; on a parse error the image
is deleted and the handler returns (no re-prompt); on success the line
is appended and `capture_count` incremented. -/

structure UIState where
  images : Finset Nat
  poseCount : Nat
  captureCount : Nat
deriving DecidableEq

inductive UIPoseDialog
  /-- dialog dismissed, or empty text (`if ok and pose_str` fails) -/
  | cancelled
  /-- dialog accepted with nonempty text -/
  | entered (ts : List Token)
deriving DecidableEq

inductive UIReport
  | warnNoFrame | warnNoChessboard | warnParse | committed | discarded
deriving DecidableEq

def uiCaptureData (st : UIState) (frameOk corners : Bool) (dlg : UIPoseDialog) :
    UIState × Option UIReport :=
  if frameOk = false then (st, some .warnNoFrame)
  else if corners = false then (st, some .warnNoChessboard)
  else
    let written := insert st.captureCount st.images
    match dlg with
    | .cancelled => ({ st with images := written.erase st.captureCount }, some .discarded)
    | .entered ts =>
      match parsePose ts with
      | none => ({ st with images := written.erase st.captureCount }, some .warnParse)
      | some _ =>
        ({ images := written, poseCount := st.poseCount + 1,
           captureCount := st.captureCount + 1 }, some .committed)

/-! ### Calibration invocation: `compute_in_hand` / `compute_to_hand`
(main.py 277-349 and 351-423; the two bodies are identical apart from the
solver called and the result file name). -/

/-- A session directory: its name, its raw file listing, and the number
of lines in its `poses.txt` (when present). -/
structure Session where
  name : String
  files : List String
  poseLines : Nat
deriving DecidableEq

/-- The greater of two names in code-point lexicographic order
(Python's string comparison). -/
def strMax (a b : String) : String := if a.data < b.data then b else a

/-- Modelled from the spec: `find_latest_data_folder` is imported from
`libs.auxiliary`, which is not among the sources; per the spec it locates
"the most recently allocated session directory under the base directory
(by name ordering, not filesystem mtime)", i.e. the name-wise greatest
entry, and is falsy when there is none. -/
def find_latest_data_folder (folders : List String) : Option String :=
  match folders with
  | [] => none
  | f :: fs => some (fs.foldl strMax f)

/-- `[f for f in os.listdir(images_path) if f.endswith('.jpg')]`;
`endswith` is the suffix test on the characters. -/
def jpgImages (s : Session) : List String :=
  s.files.filter (fun f => ".jpg".data.isSuffixOf f.data)

/-- `os.path.exists(file_path)` for `poses.txt` inside the session. -/
def posesFileExists (s : Session) : Bool := s.files.contains "poses.txt"

inductive ComputeError
  | noBaseDir | noDataFolder | noPosesFile | noImages | solverFailure
deriving DecidableEq

structure ComputeOutcome where
  error : Option ComputeError
  /-- whether `in_hand_calib`/`to_hand_calib` was called -/
  solverInvoked : Bool
  /-- result file created in the session directory, if any -/
  resultFile : Option String
deriving DecidableEq

/-- Common body of `compute_in_hand`/`compute_to_hand`:
check the base directory, locate the latest data folder, check that
`poses.txt` exists, check that at least one `.jpg` is present, run the
solver (whose success is abstracted by `solverOk`; an exception lands in
the `except` block before the result file is opened), and only then
write the result file.  Note the code never reads the CONTENT of
`poses.txt` before invoking the solver. -/
def computeCalib (resultName : String) (baseExists : Bool) (sessions : List Session)
    (solverOk : Bool) : ComputeOutcome :=
  if baseExists = false then ⟨some .noBaseDir, false, none⟩ else
  match find_latest_data_folder (sessions.map (fun s => s.name)) with
  | none => ⟨some .noDataFolder, false, none⟩
  | some nm =>
    match sessions.find? (fun s => s.name == nm) with
    | none => ⟨some .noDataFolder, false, none⟩
    | some s =>
      if posesFileExists s = false then ⟨some .noPosesFile, false, none⟩
      else if (jpgImages s).length = 0 then ⟨some .noImages, false, none⟩
      else if solverOk then ⟨none, true, some resultName⟩
      else ⟨some .solverFailure, true, none⟩

def compute_in_hand (baseExists : Bool) (sessions : List Session) (solverOk : Bool) :
    ComputeOutcome :=
  computeCalib "eye_in_hand_result.txt" baseExists sessions solverOk

def compute_to_hand (baseExists : Bool) (sessions : List Session) (solverOk : Bool) :
    ComputeOutcome :=
  computeCalib "eye_to_hand_result.txt" baseExists sessions solverOk

/-! ### Pose recording: unit conversion and the recorded line
(main.py 253-265, UI_QT.py 248-261; identical in both versions)

`x_m = x / 1000.0` (likewise `y`, `z`), `rx_rad = np.radians(rx)`
(likewise `ry`, `rz`), and the appended line is
`f"{x_m:.6f},{y_m:.6f},{z_m:.6f},{rx_rad:.6f},{ry_rad:.6f},{rz_rad:.6f}\n"`
(the trailing newline is the line terminator and is not part of the line).
Floating point is modelled by exact real arithmetic, and `%.6f` by
rounding to the nearest multiple of 10⁻⁶; the inputs treated below are
far from every rounding tie, where round-half-even (Python) and
round-half-up (Mathlib's `round`) agree and the double rounding error
cannot change the printed digits. -/

/-- `x / 1000.0` — millimetres to metres. -/
noncomputable def mmToM (x : ℝ) : ℝ := x / 1000

/-- `np.radians(d)` — degrees to radians. -/
noncomputable def degToRad (d : ℝ) : ℝ := d * (Real.pi / 180)

/-- The integer of micro-units printed by `%.6f`. -/
noncomputable def micro6 (x : ℝ) : ℤ := round (x * 10 ^ 6)

/-- Left-pad a digit string with zeros to width 6. -/
def pad6 (s : String) : String :=
  String.mk (List.replicate (6 - s.length) '0') ++ s

/-- Render a micro-unit count as a fixed 6-decimal numeral. -/
def renderMicroNat (m : Nat) : String :=
  toString (m / 10 ^ 6) ++ "." ++ pad6 (toString (m % 10 ^ 6))

def renderMicro (n : ℤ) : String :=
  if n < 0 then "-" ++ renderMicroNat n.natAbs else renderMicroNat n.natAbs

/-- The six micro-unit integers of a converted pose
(translations in mm, rotations in degrees, as parsed rationals). -/
noncomputable def convertedMicros (x y z rx ry rz : ℚ) : List ℤ :=
  [micro6 (mmToM (x : ℝ)), micro6 (mmToM (y : ℝ)), micro6 (mmToM (z : ℝ)),
   micro6 (degToRad (rx : ℝ)), micro6 (degToRad (ry : ℝ)), micro6 (degToRad (rz : ℝ))]

/-- The line appended to `poses.txt` for an accepted pose input. -/
noncomputable def recordedLine (x y z rx ry rz : ℚ) : String :=
  String.intercalate "," ((convertedMicros x y z rx ry rz).map renderMicro)

/-! ## Theorems -/

/-- C6: in `AwaitingCommand`, the `s` command is rejected with a reported
error and has no side effects whenever no frame has been published or the
shared detection state reports no chessboard; otherwise the current frame
is saved as `{capture_count}.jpg` and the machine moves to
`AwaitingPoseInput` with the pose log, `capture_count` and the other
images untouched. -/
theorem c6_capture_gating (st : MachState) (fa dt : Bool)
    (hrun : st.running = true) (hph : st.phase = .awaitingCommand) :
    (fa = false → cliStep st ⟨fa, dt, .cmd .capture⟩ = (st, some .errNoFrame)) ∧
    (fa = true → dt = false →
      cliStep st ⟨fa, dt, .cmd .capture⟩ = (st, some .errNoChessboard)) ∧
    (fa = true → dt = true →
      cliStep st ⟨fa, dt, .cmd .capture⟩ =
        ({ st with images := insert st.captureCount st.images,
                   phase := .awaitingPoseInput st.captureCount }, some .imageSaved)) := by
  refine ⟨fun h1 => ?_, fun h1 h2 => ?_, fun h1 h2 => ?_⟩ <;>
    simp [cliStep, hrun, hph, h1, *]

theorem c6_capture_gating_witness :
    initState.running = true ∧ initState.phase = .awaitingCommand ∧
    cliStep initState ⟨false, true, .cmd .capture⟩ = (initState, some .errNoFrame) ∧
    cliStep initState ⟨true, false, .cmd .capture⟩ = (initState, some .errNoChessboard) ∧
    (cliStep initState ⟨true, true, .cmd .capture⟩).1.images = {0} ∧
    (cliStep initState ⟨true, true, .cmd .capture⟩).1.phase = .awaitingPoseInput 0 := by
  refine ⟨rfl, rfl,
    (c6_capture_gating initState false true rfl rfl).1 rfl,
    (c6_capture_gating initState true false rfl rfl).2.1 rfl rfl, ?_, ?_⟩ <;>
  · have h := (c6_capture_gating initState true true rfl rfl).2.2 rfl rfl
    rw [h]
    rfl

/-- C4: at the pose prompt, the cancel token deletes the tentative image
`{idx}.jpg`, writes no pose line, leaves `capture_count` unchanged and
returns to `AwaitingCommand`; under the session invariant the image set
returns to exactly `0.jpg..{capture_count-1}.jpg`, so no new image file
remains. -/
theorem c4_cancel_aborts_sample (st : MachState) (idx : Nat) (fa dt : Bool)
    (hrun : st.running = true) (hph : st.phase = .awaitingPoseInput idx) :
    (cliStep st ⟨fa, dt, .pose .cancel⟩).1.images = st.images.erase idx ∧
    (cliStep st ⟨fa, dt, .pose .cancel⟩).1.poseCount = st.poseCount ∧
    (cliStep st ⟨fa, dt, .pose .cancel⟩).1.captureCount = st.captureCount ∧
    (cliStep st ⟨fa, dt, .pose .cancel⟩).1.phase = .awaitingCommand ∧
    (cliStep st ⟨fa, dt, .pose .cancel⟩).2 = some .cancelled ∧
    (Inv st → (cliStep st ⟨fa, dt, .pose .cancel⟩).1.images =
      Finset.range st.captureCount) := by
  have hstep : cliStep st ⟨fa, dt, .pose .cancel⟩ =
      ({ st with images := st.images.erase idx, phase := .awaitingCommand },
        some .cancelled) := by
    simp [cliStep, hrun, hph]
  refine ⟨by rw [hstep], by rw [hstep], by rw [hstep], by rw [hstep], by rw [hstep], ?_⟩
  intro hInv
  obtain ⟨-, hm⟩ := hInv
  rw [hph] at hm
  obtain ⟨hidx, himg⟩ := hm
  rw [hstep]
  show st.images.erase idx = Finset.range st.captureCount
  rw [himg, hidx, Finset.range_succ,
    Finset.erase_insert Finset.not_mem_range_self]

theorem c4_cancel_aborts_sample_witness :
    ((⟨{0}, 0, 0, .awaitingPoseInput 0, true⟩ : MachState)).running = true ∧
    ((⟨{0}, 0, 0, .awaitingPoseInput 0, true⟩ : MachState)).phase = .awaitingPoseInput 0 ∧
    Inv ⟨{0}, 0, 0, .awaitingPoseInput 0, true⟩ ∧
    (cliStep (⟨{0}, 0, 0, .awaitingPoseInput 0, true⟩ : MachState)
        ⟨true, true, .pose .cancel⟩).1.images = Finset.range 0 := by
  have hInv : Inv ⟨{0}, 0, 0, .awaitingPoseInput 0, true⟩ := by
    refine ⟨rfl, rfl, ?_⟩
    decide
  exact ⟨rfl, rfl, hInv,
    (c4_cancel_aborts_sample ⟨{0}, 0, 0, .awaitingPoseInput 0, true⟩ 0 true true
      rfl rfl).2.2.2.2.2 hInv⟩

/-- C5 counterexample: in the CLI, a pose input of 5 numbers (parsing
fails) leaves the machine state entirely unchanged — in particular the
tentative image `0.jpg` is NOT deleted, contradicting the claim that a
malformed input deletes the tentative image file. -/
theorem c5_parse_error_counterexample :
    parsePose [some 1, some 2, some 3, some 4, some 5] = none ∧
    cliStep ⟨{0}, 0, 0, .awaitingPoseInput 0, true⟩
        ⟨true, true, .pose (.tokens [some 1, some 2, some 3, some 4, some 5])⟩ =
      (⟨{0}, 0, 0, .awaitingPoseInput 0, true⟩, some .errParse) ∧
    (0 : Nat) ∈ (cliStep ⟨{0}, 0, 0, .awaitingPoseInput 0, true⟩
        ⟨true, true, .pose (.tokens [some 1, some 2, some 3, some 4, some 5])⟩).1.images := by
  refine ⟨rfl, ?_, ?_⟩ <;> decide

/-- C5 amended: a malformed pose input (not parsing as exactly 6 real
numbers) leaves `capture_count` unchanged and reports the error in both
versions, but the two versions differ from the claim: the CLI keeps the
tentative image and re-prompts (its state is entirely unchanged, still in
`AwaitingPoseInput`), while the Qt version deletes the tentative image
and abandons the capture without re-prompting. -/
theorem c5_parse_error_amended (st : MachState) (idx : Nat) (fa dt : Bool)
    (ust : UIState) (ts : List Token)
    (hrun : st.running = true) (hph : st.phase = .awaitingPoseInput idx)
    (hts : parsePose ts = none) :
    cliStep st ⟨fa, dt, .pose (.tokens ts)⟩ = (st, some .errParse) ∧
    (uiCaptureData ust true true (.entered ts)).1.poseCount = ust.poseCount ∧
    (uiCaptureData ust true true (.entered ts)).1.captureCount = ust.captureCount ∧
    ust.captureCount ∉ (uiCaptureData ust true true (.entered ts)).1.images ∧
    (uiCaptureData ust true true (.entered ts)).2 = some .warnParse := by
  refine ⟨by simp [cliStep, hrun, hph, hts], ?_, ?_, ?_, ?_⟩ <;>
    simp [uiCaptureData, hts, Finset.not_mem_erase]

theorem c5_parse_error_amended_witness :
    ((⟨{0}, 0, 0, .awaitingPoseInput 0, true⟩ : MachState)).running = true ∧
    parsePose [some 1, some 2, some 3, some 4, some 5] = none ∧
    cliStep (⟨{0}, 0, 0, .awaitingPoseInput 0, true⟩ : MachState)
        ⟨true, true, .pose (.tokens [some 1, some 2, some 3, some 4, some 5])⟩ =
      (⟨{0}, 0, 0, .awaitingPoseInput 0, true⟩, some .errParse) ∧
    (0 : Nat) ∉ (uiCaptureData ⟨∅, 0, 0⟩ true true
        (.entered [some 1, some 2, some 3, some 4, some 5])).1.images := by
  have h := c5_parse_error_amended ⟨{0}, 0, 0, .awaitingPoseInput 0, true⟩ 0 true true
    ⟨∅, 0, 0⟩ [some 1, some 2, some 3, some 4, some 5] rfl rfl (by decide)
  exact ⟨rfl, by decide, h.1, h.2.2.2.1⟩

/-- A left fold of `max` dominates its start value and every element. -/
theorem le_foldl_max {α : Type} [LinearOrder α] (l : List α) (a : α) :
    a ≤ l.foldl max a ∧ ∀ x ∈ l, x ≤ l.foldl max a := by
  induction l generalizing a with
  | nil => simp
  | cons b t ih =>
    obtain ⟨h1, h2⟩ := ih (max a b)
    refine ⟨le_trans (le_max_left a b) h1, ?_⟩
    intro x hx
    rcases List.mem_cons.mp hx with heq | hx
    · rw [heq]
      exact le_trans (le_max_right a b) h1
    · exact h2 x hx

/-- A left fold of `max` is bounded by any bound on the start value and
the elements. -/
theorem foldl_max_le {α : Type} [LinearOrder α] (l : List α) (a b : α)
    (ha : a ≤ b) (h : ∀ x ∈ l, x ≤ b) : l.foldl max a ≤ b := by
  induction l generalizing a with
  | nil => exact ha
  | cons c t ih =>
    exact ih (max a c) (max_le ha (h c (List.mem_cons_self c t)))
      (fun x hx => h x (List.mem_cons_of_mem c hx))

theorem strMax_data (a b : String) : (strMax a b).data = max a.data b.data := by
  unfold strMax
  by_cases h : a.data < b.data
  · rw [if_pos h, max_eq_right h.le]
  · rw [if_neg h, max_eq_left (le_of_not_lt h)]

theorem strMax_choice (a b : String) : strMax a b = a ∨ strMax a b = b := by
  unfold strMax
  by_cases h : a.data < b.data
  · exact Or.inr (if_pos h)
  · exact Or.inl (if_neg h)

theorem foldl_strMax_data (l : List String) (a : String) :
    (l.foldl strMax a).data = (l.map String.data).foldl max a.data := by
  induction l generalizing a with
  | nil => rfl
  | cons b t ih =>
    show (t.foldl strMax (strMax a b)).data = (t.map String.data).foldl max (max a.data b.data)
    rw [ih, strMax_data]

/-- A left fold of `strMax` is the start value or one of the elements. -/
theorem foldl_strMax_mem (l : List String) (a : String) :
    l.foldl strMax a ∈ a :: l := by
  induction l generalizing a with
  | nil => simp
  | cons b t ih =>
    show t.foldl strMax (strMax a b) ∈ a :: b :: t
    rcases List.mem_cons.mp (ih (strMax a b)) with heq | hmem
    · rw [heq]
      rcases strMax_choice a b with hab | hab <;> rw [hab]
      · exact List.mem_cons_self a (b :: t)
      · exact List.mem_cons_of_mem a (List.mem_cons_self b t)
    · exact List.mem_cons_of_mem a (List.mem_cons_of_mem b hmem)

/-- The located data folder is one of the entries and is the name-wise
greatest one (in code-point lexicographic order on the characters). -/
theorem find_latest_is_max (folders : List String) (nm : String)
    (h : find_latest_data_folder folders = some nm) :
    nm ∈ folders ∧ ∀ f ∈ folders, f.data ≤ nm.data := by
  match folders, h with
  | f :: fs, h =>
    have hnm : nm = fs.foldl strMax f := by
      simpa [find_latest_data_folder] using h.symm
    subst hnm
    refine ⟨foldl_strMax_mem fs f, ?_⟩
    obtain ⟨h1, h2⟩ := le_foldl_max (fs.map String.data) f.data
    intro g hg
    rw [foldl_strMax_data]
    rcases List.mem_cons.mp hg with heq | hg
    · rw [heq]
      exact h1
    · exact h2 g.data (List.mem_map_of_mem String.data hg)

/-- When the solver is abstracted as failing, no result file is created
and the failure is reported, on every path of `computeCalib`. -/
theorem computeCalib_failure_no_result (r : String) (b : Bool) (ss : List Session) :
    (computeCalib r b ss false).resultFile = none ∧
    (computeCalib r b ss false).error.isSome = true := by
  unfold computeCalib
  split
  · exact ⟨rfl, rfl⟩
  · split
    · exact ⟨rfl, rfl⟩
    · split
      · exact ⟨rfl, rfl⟩
      · split
        · exact ⟨rfl, rfl⟩
        · split
          · exact ⟨rfl, rfl⟩
          · simp

/-- C7: when the located session contains zero `.jpg` files, both
`compute_in_hand` and `compute_to_hand` report an error without invoking
the solver and create no result file; moreover, on every path, a solver
failure leaves no result file and is reported. -/
theorem c7_no_images_no_result (solverOk : Bool) (sessions : List Session)
    (nm : String) (s : Session)
    (hfind : find_latest_data_folder (sessions.map (fun s => s.name)) = some nm)
    (hget : sessions.find? (fun s => s.name == nm) = some s)
    (hnoimg : jpgImages s = []) :
    ((compute_in_hand true sessions solverOk).error.isSome = true ∧
     (compute_in_hand true sessions solverOk).resultFile = none ∧
     (compute_in_hand true sessions solverOk).solverInvoked = false ∧
     (compute_to_hand true sessions solverOk).error.isSome = true ∧
     (compute_to_hand true sessions solverOk).resultFile = none ∧
     (compute_to_hand true sessions solverOk).solverInvoked = false) ∧
    ∀ (b : Bool) (ss : List Session),
      (compute_in_hand b ss false).resultFile = none ∧
      (compute_in_hand b ss false).error.isSome = true ∧
      (compute_to_hand b ss false).resultFile = none ∧
      (compute_to_hand b ss false).error.isSome = true := by
  constructor
  · cases hpf : posesFileExists s <;>
      simp [compute_in_hand, compute_to_hand, computeCalib, hfind, hget, hnoimg, hpf]
  · intro b ss
    exact ⟨(computeCalib_failure_no_result _ b ss).1,
      (computeCalib_failure_no_result _ b ss).2,
      (computeCalib_failure_no_result _ b ss).1,
      (computeCalib_failure_no_result _ b ss).2⟩

theorem c7_no_images_no_result_witness :
    find_latest_data_folder (([⟨"data2025010101", ["poses.txt"], 3⟩] : List Session).map
        (fun s => s.name)) = some "data2025010101" ∧
    ([⟨"data2025010101", ["poses.txt"], 3⟩] : List Session).find?
        (fun s => s.name == "data2025010101") = some ⟨"data2025010101", ["poses.txt"], 3⟩ ∧
    jpgImages ⟨"data2025010101", ["poses.txt"], 3⟩ = [] ∧
    (compute_in_hand true [⟨"data2025010101", ["poses.txt"], 3⟩] true).resultFile = none ∧
    (compute_to_hand true [⟨"data2025010101", ["poses.txt"], 3⟩] true).resultFile = none := by
  have h := c7_no_images_no_result true [⟨"data2025010101", ["poses.txt"], 3⟩]
    "data2025010101" ⟨"data2025010101", ["poses.txt"], 3⟩ (by decide) (by decide) (by decide)
  exact ⟨by decide, by decide, by decide, h.1.2.1, h.1.2.2.2.2.1⟩

/-- C8 counterexample: a session whose pose log exists but is EMPTY
(`poseLines = 0`) while holding one image still has the solver invoked —
the code only checks `os.path.exists(poses.txt)`, never that the log is
non-empty, contradicting the claim that an empty pose log prevents
solver invocation. -/
theorem c8_empty_pose_log_counterexample :
    (Session.mk "data2025010101" ["poses.txt", "0.jpg"] 0).poseLines = 0 ∧
    (compute_in_hand true [⟨"data2025010101", ["poses.txt", "0.jpg"], 0⟩] true).solverInvoked
      = true ∧
    (compute_to_hand true [⟨"data2025010101", ["poses.txt", "0.jpg"], 0⟩] true).solverInvoked
      = true := by
  refine ⟨rfl, ?_, ?_⟩ <;> decide

/-- C8 amended: before invoking the solver the code locates the
name-wise greatest session directory and verifies that `poses.txt`
EXISTS (not that it is non-empty) and that at least one `.jpg` file is
present; the solver is invoked exactly when both checks pass,
irrespective of the number of lines in the pose log. -/
theorem c8_compute_precheck_amended (r : String) (solverOk : Bool)
    (sessions : List Session) (nm : String) (s : Session)
    (hfind : find_latest_data_folder (sessions.map (fun s => s.name)) = some nm)
    (hget : sessions.find? (fun s => s.name == nm) = some s) :
    (∀ s' ∈ sessions, s'.name.data ≤ nm.data) ∧
    ((computeCalib r true sessions solverOk).solverInvoked = true ↔
      (posesFileExists s = true ∧ (jpgImages s).length ≠ 0)) := by
  constructor
  · intro s' hs'
    exact (find_latest_is_max _ nm hfind).2 s'.name (List.mem_map_of_mem _ hs')
  · cases hpf : posesFileExists s
    · simp [computeCalib, hfind, hget, hpf]
    · cases himg : (jpgImages s).length with
      | zero => simp [computeCalib, hfind, hget, hpf, himg]
      | succ n =>
        cases solverOk <;> simp [computeCalib, hfind, hget, hpf, himg]

theorem c8_compute_precheck_amended_witness :
    find_latest_data_folder (([⟨"data2025010101", ["poses.txt", "0.jpg"], 0⟩] :
        List Session).map (fun s => s.name)) = some "data2025010101" ∧
    posesFileExists ⟨"data2025010101", ["poses.txt", "0.jpg"], 0⟩ = true ∧
    (jpgImages ⟨"data2025010101", ["poses.txt", "0.jpg"], 0⟩).length ≠ 0 ∧
    (computeCalib "eye_in_hand_result.txt" true
        [⟨"data2025010101", ["poses.txt", "0.jpg"], 0⟩] true).solverInvoked = true := by
  have h := c8_compute_precheck_amended "eye_in_hand_result.txt" true
    [⟨"data2025010101", ["poses.txt", "0.jpg"], 0⟩] "data2025010101"
    ⟨"data2025010101", ["poses.txt", "0.jpg"], 0⟩ (by decide) (by decide)
  exact ⟨by decide, by decide, by decide, h.2.mpr ⟨by decide, by decide⟩⟩

theorem run_append (st : MachState) (a b : List StepInput) :
    run st (a ++ b) = run (run st a) b := by
  simp [run, List.foldl_append]

/-- A retried pose input (empty or unparseable) leaves the state alone. -/
theorem retry_step_noop (st : MachState) (idx : Nat) (fa dt : Bool) (p : PoseInput)
    (hrun : st.running = true) (hph : st.phase = .awaitingPoseInput idx)
    (hr : isRetry p = true) :
    (cliStep st ⟨fa, dt, .pose p⟩).1 = st := by
  cases p with
  | cancel => simp [isRetry] at hr
  | empty => simp [cliStep, hrun, hph]
  | tokens ts =>
    have hts : parsePose ts = none := by
      simpa [isRetry, Option.isNone_iff_eq_none] using hr
    simp [cliStep, hrun, hph, hts]

theorem run_retries_noop (retries : List PoseInput) (st : MachState) (idx : Nat)
    (hrun : st.running = true) (hph : st.phase = .awaitingPoseInput idx)
    (hr : ∀ p ∈ retries, isRetry p = true) :
    run st (retries.map (fun p => ⟨true, true, .pose p⟩)) = st := by
  induction retries with
  | nil => rfl
  | cons p t ih =>
    have h1 := retry_step_noop st idx true true p hrun hph (hr p (List.mem_cons_self p t))
    show run (cliStep st ⟨true, true, .pose p⟩).1 (t.map (fun p => ⟨true, true, .pose p⟩)) = st
    rw [h1]
    exact ih (fun q hq => hr q (List.mem_cons_of_mem p hq))

/-- Effect of one successful capture: the image `{capture_count}.jpg`
appears, one pose line is appended, `capture_count` increments, and the
machine is back at the command prompt. -/
theorem captureOp_run (st : MachState) (retries : List PoseInput) (ts : List Token)
    (hrun : st.running = true) (hph : st.phase = .awaitingCommand)
    (hr : ∀ p ∈ retries, isRetry p = true) (hts : (parsePose ts).isSome = true) :
    run st (captureOp retries ts) =
      { st with images := insert st.captureCount st.images,
                poseCount := st.poseCount + 1,
                captureCount := st.captureCount + 1,
                phase := .awaitingCommand } := by
  obtain ⟨qs, hqs⟩ := Option.isSome_iff_exists.mp hts
  have h1 : cliStep st ⟨true, true, .cmd .capture⟩ =
      ({ st with images := insert st.captureCount st.images,
                 phase := .awaitingPoseInput st.captureCount }, some .imageSaved) := by
    simp [cliStep, hrun, hph]
  show run (cliStep st ⟨true, true, .cmd .capture⟩).1
      ((retries ++ [PoseInput.tokens ts]).map (fun p => ⟨true, true, .pose p⟩)) = _
  rw [h1, List.map_append, run_append]
  rw [run_retries_noop retries
    ({ st with images := insert st.captureCount st.images,
               phase := .awaitingPoseInput st.captureCount }) st.captureCount hrun rfl hr]
  show (cliStep { st with images := insert st.captureCount st.images,
                          phase := .awaitingPoseInput st.captureCount }
          ⟨true, true, .pose (.tokens ts)⟩).1 = _
  simp [cliStep, hrun, hqs]

/-- Runs of successful captures, starting from a command-prompt state
with `n` committed samples, end with `n + N` committed samples. -/
theorem run_captureOps (ops : List (List PoseInput × List Token)) (st0 : MachState)
    (n : Nat) (h0 : st0 = ⟨Finset.range n, n, n, .awaitingCommand, true⟩)
    (hops : ∀ op ∈ ops, (∀ r ∈ op.1, isRetry r = true) ∧ (parsePose op.2).isSome = true) :
    run st0 ((ops.map (fun op => captureOp op.1 op.2)).flatten) =
      ⟨Finset.range (n + ops.length), n + ops.length, n + ops.length,
        .awaitingCommand, true⟩ := by
  induction ops generalizing st0 n with
  | nil =>
    subst h0
    simp [run]
  | cons op t ih =>
    subst h0
    rw [List.map_cons, List.flatten_cons, run_append]
    have h1 := captureOp_run ⟨Finset.range n, n, n, .awaitingCommand, true⟩ op.1 op.2
      rfl rfl (hops op (List.mem_cons_self _ _)).1 (hops op (List.mem_cons_self _ _)).2
    rw [h1]
    have h2 : ({ (⟨Finset.range n, n, n, .awaitingCommand, true⟩ : MachState) with
        images := insert n (Finset.range n), poseCount := n + 1, captureCount := n + 1,
        phase := .awaitingCommand } : MachState)
        = ⟨Finset.range (n + 1), n + 1, n + 1, .awaitingCommand, true⟩ := by
      rw [Finset.range_succ]
    rw [h2, ih _ (n + 1) rfl (fun op hop => hops op (List.mem_cons_of_mem _ hop))]
    have harith : n + 1 + t.length = n + (t.length + 1) := by omega
    rw [harith]
    rfl

/-- C1: for every sequence of `N` successful captures from a fresh
session, after each each-prefix of `k` operations the session directory
contains exactly the image files `0.jpg..{k-1}.jpg`, the pose log has
exactly `k` lines, `capture_count = k`, the image count equals the
pose-line count (no partially committed sample), and the machine is back
at the command prompt. -/
theorem c1_capture_session_invariant (ops : List (List PoseInput × List Token))
    (hops : ∀ op ∈ ops, (∀ r ∈ op.1, isRetry r = true) ∧ (parsePose op.2).isSome = true) :
    ∀ k, k ≤ ops.length → ∀ st,
      st = run initState (((ops.take k).map (fun op => captureOp op.1 op.2)).flatten) →
      st.images = Finset.range k ∧ st.poseCount = k ∧ st.captureCount = k ∧
      st.images.card = st.poseCount ∧ st.phase = .awaitingCommand := by
  intro k hk st hst
  have h0 : initState = (⟨Finset.range 0, 0, 0, .awaitingCommand, true⟩ : MachState) := by
    rw [Finset.range_zero]
    rfl
  have h := run_captureOps (ops.take k) initState 0 h0
    (fun op hop => hops op (List.take_subset k ops hop))
  have hlen : (ops.take k).length = k := by
    rw [List.length_take]
    omega
  rw [hlen] at h
  rw [hst, h]
  refine ⟨by simp, by simp, by simp, ?_, rfl⟩
  simp [Finset.card_range]

theorem c1_capture_session_invariant_witness :
    (∀ op ∈ ([([], [some 1, some 2, some 3, some 4, some 5, some 6]),
              ([PoseInput.empty, PoseInput.tokens [some 1]],
                [some 7, some 8, some 9, some 10, some 11, some 12])] :
        List (List PoseInput × List Token)),
      (∀ r ∈ op.1, isRetry r = true) ∧ (parsePose op.2).isSome = true) ∧
    ∀ st, st = run initState
        ((([([], [some 1, some 2, some 3, some 4, some 5, some 6]),
            ([PoseInput.empty, PoseInput.tokens [some 1]],
              [some 7, some 8, some 9, some 10, some 11, some 12])] :
          List (List PoseInput × List Token)).take 2).map
            (fun op => captureOp op.1 op.2)).flatten →
      st.images = Finset.range 2 ∧ st.poseCount = 2 ∧ st.captureCount = 2 ∧
      st.images.card = st.poseCount ∧ st.phase = .awaitingCommand := by
  refine ⟨by decide, ?_⟩
  exact c1_capture_session_invariant _ (by decide) 2 (by decide)

/-- `f"{k:02d}"` for `1 ≤ k ≤ 99` is a string of two decimal digits that
`int` parses back to `k`. -/
theorem format02_facts : ∀ k, k < 99 →
    ((format02 (k + 1)).data.length = 2 ∧
      (format02 (k + 1)).data.all Char.isDigit = true ∧
      digitsToNat (format02 (k + 1)).data = k + 1) := by decide

/-- The name built from a two-digit suffix passes the allocation filter
and its parsed suffix is the original number. -/
theorem isValidEntry_append (baseName : String) (k : Nat) (hk1 : 1 ≤ k) (hk99 : k ≤ 99) :
    isValidEntry baseName (baseName ++ format02 k) = true ∧
    suffixVal (baseName ++ format02 k) = k := by
  obtain ⟨hlen, hdig, hval⟩ := format02_facts (k - 1) (by omega)
  have hk' : k - 1 + 1 = k := by omega
  rw [hk'] at hlen hdig hval
  have hdata : (baseName ++ format02 k).data = baseName.data ++ (format02 k).data :=
    String.data_append _ _
  have hlast : lastTwo (baseName ++ format02 k) = (format02 k).data := by
    unfold lastTwo
    rw [hdata, List.length_append, hlen]
    have h2 : baseName.data.length + 2 - 2 = baseName.data.length := by omega
    rw [h2, List.drop_left]
  constructor
  · unfold isValidEntry
    rw [hlast, hdata, List.length_append, hlen]
    simp [List.isPrefixOf_iff_prefix, List.prefix_append, hdig]
  · unfold suffixVal
    rw [hlast, hval]

theorem existingNums_append_valid (base d : String) (entries : List String)
    (h : isValidEntry base d = true) :
    existingNums base (entries ++ [d]) = existingNums base entries ++ [suffixVal d] := by
  unfold existingNums
  rw [List.filter_append, List.map_append]
  simp [h]

theorem existingNums_append_invalid (base d : String) (entries : List String)
    (h : isValidEntry base d = false) :
    existingNums base (entries ++ [d]) = existingNums base entries := by
  unfold existingNums
  rw [List.filter_append]
  simp [h]

theorem mem_existingNums (base : String) (entries : List String) (m : Nat)
    (h : m ∈ existingNums base entries) :
    ∃ d ∈ entries, isValidEntry base d = true ∧ suffixVal d = m := by
  unfold existingNums at h
  obtain ⟨d, hd, hdm⟩ := List.mem_map.mp h
  obtain ⟨hd1, hd2⟩ := List.mem_filter.mp hd
  exact ⟨d, hd1, hd2, hdm⟩

theorem existingNums_mem (base d : String) (entries : List String)
    (hd : d ∈ entries) (hv : isValidEntry base d = true) :
    suffixVal d ∈ existingNums base entries :=
  List.mem_map_of_mem suffixVal (List.mem_filter.mpr ⟨hd, hv⟩)

/-- When every existing valid suffix is at most 98, the allocated number
stays in `1..99`. -/
theorem nextNum_le (base : String) (entries : List String)
    (hb : ∀ d ∈ entries, isValidEntry base d = true → suffixVal d ≤ 98) :
    1 ≤ nextNum base entries ∧ nextNum base entries ≤ 99 := by
  unfold nextNum
  by_cases he : (existingNums base entries).isEmpty
  · rw [if_pos he]
    omega
  · rw [if_neg he]
    have hfold : (existingNums base entries).foldl max 0 ≤ 98 := by
      apply foldl_max_le
      · omega
      · intro x hx
        obtain ⟨d, hd, hdv, hdm⟩ := mem_existingNums base entries x hx
        rw [← hdm]
        exact hb d hd hdv
    omega

theorem nextNum_empty (base : String) (entries : List String)
    (he : existingNums base entries = []) : nextNum base entries = 1 := by
  unfold nextNum
  rw [he]
  rfl

theorem nextNum_nonempty (base : String) (entries : List String)
    (he : existingNums base entries ≠ []) :
    nextNum base entries = (existingNums base entries).foldl max 0 + 1 := by
  unfold nextNum
  rw [if_neg (by simpa [List.isEmpty_iff] using he)]

theorem foldl_max_le_nextNum (base : String) (entries : List String) :
    (existingNums base entries).foldl max 0 ≤ nextNum base entries := by
  by_cases he : existingNums base entries = []
  · rw [he, nextNum_empty base entries he]
    show (0 : Nat) ≤ 1
    omega
  · rw [nextNum_nonempty base entries he]
    omega

theorem nextNum_append_valid (base d : String) (entries : List String)
    (hv : isValidEntry base d = true) :
    nextNum base (entries ++ [d]) =
      max ((existingNums base entries).foldl max 0) (suffixVal d) + 1 := by
  have hne : existingNums base (entries ++ [d]) ≠ [] := by
    rw [existingNums_append_valid base d entries hv]
    simp
  rw [nextNum_nonempty base (entries ++ [d]) hne,
    existingNums_append_valid base d entries hv, List.foldl_append]
  rfl

/-- C3 amended: as long as every existing matching suffix is at most 98
(so the allocated suffix still fits in two digits), allocation returns 01
when no matching entry exists and the maximal existing suffix plus one
otherwise (strictly above every existing suffix); the allocated name
carries exactly that two-digit suffix, and the allocation number after
creating the directory is strictly greater (one more), so two same-date
allocations receive strictly increasing suffixes.  Without the bound the
code reuses the same name (see the counterexample). -/
theorem c3_allocation_amended (today : String) (entries : List String)
    (hb : ∀ d ∈ entries, isValidEntry (baseNameFor today) d = true → suffixVal d ≤ 98) :
    (existingNums (baseNameFor today) entries = [] →
      nextNum (baseNameFor today) entries = 1 ∧
      (allocate (baseNameFor today) entries).1 = baseNameFor today ++ "01") ∧
    (existingNums (baseNameFor today) entries ≠ [] →
      nextNum (baseNameFor today) entries =
        (existingNums (baseNameFor today) entries).foldl max 0 + 1) ∧
    (∀ m ∈ existingNums (baseNameFor today) entries,
      m < nextNum (baseNameFor today) entries) ∧
    suffixVal (allocate (baseNameFor today) entries).1 =
      nextNum (baseNameFor today) entries ∧
    nextNum (baseNameFor today) (allocate (baseNameFor today) entries).2 =
      nextNum (baseNameFor today) entries + 1 := by
  obtain ⟨hk1, hk99⟩ := nextNum_le (baseNameFor today) entries hb
  obtain ⟨hvalid, hsuffix⟩ :=
    isValidEntry_append (baseNameFor today) (nextNum (baseNameFor today) entries) hk1 hk99
  have halloc1 : (allocate (baseNameFor today) entries).1 =
      baseNameFor today ++ format02 (nextNum (baseNameFor today) entries) := rfl
  refine ⟨?_, nextNum_nonempty _ entries, ?_, ?_, ?_⟩
  · intro he
    refine ⟨nextNum_empty _ entries he, ?_⟩
    rw [halloc1, nextNum_empty _ entries he]
    have h01 : format02 1 = "01" := by decide
    rw [h01]
  · intro m hm
    have he : existingNums (baseNameFor today) entries ≠ [] := by
      intro hnil
      rw [hnil] at hm
      exact List.not_mem_nil m hm
    have hfold := (le_foldl_max (existingNums (baseNameFor today) entries) 0).2 m hm
    rw [nextNum_nonempty _ entries he]
    omega
  · rw [halloc1]
    exact hsuffix
  · have hnotmem : ((allocate (baseNameFor today) entries).1 ∈ entries) → False := by
      intro hmem
      rw [halloc1] at hmem
      have hmemnum := existingNums_mem (baseNameFor today) _ entries hmem hvalid
      rw [hsuffix] at hmemnum
      have he : existingNums (baseNameFor today) entries ≠ [] := by
        intro hnil
        rw [hnil] at hmemnum
        exact List.not_mem_nil _ hmemnum
      have hfold := (le_foldl_max (existingNums (baseNameFor today) entries) 0).2 _ hmemnum
      have heq := nextNum_nonempty (baseNameFor today) entries he
      omega
    have hcontains : entries.contains (allocate (baseNameFor today) entries).1 = false := by
      cases hc : entries.contains (allocate (baseNameFor today) entries).1
      · rfl
      · exact absurd (List.elem_iff.mp hc) hnotmem
    have hsnd : (allocate (baseNameFor today) entries).2 =
        entries ++ [(allocate (baseNameFor today) entries).1] := by
      show (if entries.contains (get_next_save_dir (baseNameFor today) entries) then entries
        else entries ++ [get_next_save_dir (baseNameFor today) entries]) = _
      rw [show get_next_save_dir (baseNameFor today) entries =
        (allocate (baseNameFor today) entries).1 from rfl, hcontains]
      simp
    rw [hsnd, halloc1, nextNum_append_valid _ _ entries hvalid, hsuffix,
      max_eq_right (foldl_max_le_nextNum (baseNameFor today) entries)]

theorem c3_allocation_amended_witness :
    (∀ d ∈ ["data2025010105"],
      isValidEntry (baseNameFor "20250101") d = true → suffixVal d ≤ 98) ∧
    nextNum (baseNameFor "20250101") ["data2025010105"] = 6 ∧
    suffixVal (allocate (baseNameFor "20250101") ["data2025010105"]).1 = 6 ∧
    nextNum (baseNameFor "20250101")
      (allocate (baseNameFor "20250101") ["data2025010105"]).2 = 7 := by
  have h := c3_allocation_amended "20250101" ["data2025010105"] (by decide)
  have h6 : nextNum (baseNameFor "20250101") ["data2025010105"] = 6 := by decide
  exact ⟨by decide, h6, h6 ▸ h.2.2.2.1, by rw [h.2.2.2.2, h6]⟩

/-- C3 counterexample: with an existing same-date session of suffix 99,
two consecutive allocations both return the very same directory name
`data20250101100` — the second scan ignores the three-character suffix
`100`, so the suffixes are not strictly increasing (they are equal) and
the second allocation does not return one more than the maximum existing
suffix. -/
theorem c3_same_date_collision_counterexample :
    (allocate (baseNameFor "20250101") ["data2025010199"]).1 = "data20250101100" ∧
    (allocate (baseNameFor "20250101")
        (allocate (baseNameFor "20250101") ["data2025010199"]).2).1 = "data20250101100" := by
  constructor <;> decide

set_option maxRecDepth 40000 in
/-- C9 counterexample: with the full set of 99 same-date sessions
`data2025010101 .. data2025010199` present, the allocator computes number
100 and returns the name with the three-digit suffix `100` — outside the
two-digit space 01–99 — and the code has no exhaustion report (the
scanning function unconditionally returns a name). -/
theorem c9_suffix_overflow_counterexample :
    ((List.range 99).map
        (fun i => baseNameFor "20250101" ++ format02 (i + 1))).length = 99 ∧
    nextNum (baseNameFor "20250101")
      ((List.range 99).map (fun i => baseNameFor "20250101" ++ format02 (i + 1))) = 100 ∧
    (format02 (nextNum (baseNameFor "20250101")
      ((List.range 99).map (fun i => baseNameFor "20250101" ++ format02 (i + 1))))).data.length
        ≠ 2 := by
  refine ⟨by decide, by decide, by decide⟩

set_option maxRecDepth 40000 in
/-- C9 amended: with 99 same-date sessions present, allocation silently
produces the out-of-space three-digit suffix `100` (directory
`data20250101100`); no exhaustion is reported. -/
theorem c9_suffix_overflow_amended :
    get_next_save_dir (baseNameFor "20250101")
        ((List.range 99).map (fun i => baseNameFor "20250101" ++ format02 (i + 1))) =
      baseNameFor "20250101" ++ "100" := by decide

/-- C10: an entry counts toward the existing-suffix maximum exactly when
it starts with the prefix plus the date, is exactly two characters longer
than that base name, and ends in two decimal digits; the allocator's
result is determined by the matching entries alone, and appending any
non-matching entry changes neither the allocated number nor the allocated
name. -/
theorem c10_entry_filter (today : String) (entries : List String) (d : String) :
    (isValidEntry (baseNameFor today) d = true ↔
      ((baseNameFor today).data.isPrefixOf d.data = true ∧
        d.data.length = (baseNameFor today).data.length + 2 ∧
        (lastTwo d).all Char.isDigit = true)) ∧
    (isValidEntry (baseNameFor today) d = false →
      nextNum (baseNameFor today) (entries ++ [d]) =
        nextNum (baseNameFor today) entries ∧
      get_next_save_dir (baseNameFor today) (entries ++ [d]) =
        get_next_save_dir (baseNameFor today) entries) ∧
    nextNum (baseNameFor today) entries =
      nextNum (baseNameFor today)
        (entries.filter (fun e => isValidEntry (baseNameFor today) e)) := by
  refine ⟨?_, ?_, ?_⟩
  · unfold isValidEntry
    rw [Bool.and_eq_true, Bool.and_eq_true]
    constructor
    · rintro ⟨⟨h1, h2⟩, h3⟩
      exact ⟨h1, by simpa using h2, h3⟩
    · rintro ⟨h1, h2, h3⟩
      exact ⟨⟨h1, by simpa using h2⟩, h3⟩
  · intro hinv
    have hEx := existingNums_append_invalid (baseNameFor today) d entries hinv
    have hnn : nextNum (baseNameFor today) (entries ++ [d]) =
        nextNum (baseNameFor today) entries := by
      unfold nextNum
      rw [hEx]
    exact ⟨hnn, by unfold get_next_save_dir; rw [hnn]⟩
  · have hEx : existingNums (baseNameFor today)
        (entries.filter (fun e => isValidEntry (baseNameFor today) e)) =
        existingNums (baseNameFor today) entries := by
      unfold existingNums
      rw [List.filter_filter]
      simp
    unfold nextNum
    rw [hEx]

theorem c10_entry_filter_witness :
    isValidEntry (baseNameFor "20250101") "junk" = false ∧
    nextNum (baseNameFor "20250101") (["data2025010105"] ++ ["junk"]) =
      nextNum (baseNameFor "20250101") ["data2025010105"] ∧
    get_next_save_dir (baseNameFor "20250101") (["data2025010105"] ++ ["junk"]) =
      get_next_save_dir (baseNameFor "20250101") ["data2025010105"] := by
  have h := (c10_entry_filter "20250101" ["data2025010105"] "junk").2.1 (by decide)
  exact ⟨by decide, h.1, h.2⟩

theorem micro6_mm_1005 : micro6 (mmToM ((100.5 : ℚ) : ℝ)) = 100500 := by
  have h : mmToM ((100.5 : ℚ) : ℝ) * 10 ^ 6 = ((100500 : ℤ) : ℝ) := by
    unfold mmToM
    push_cast
    norm_num
  unfold micro6
  rw [h, round_intCast]

theorem micro6_mm_2003 : micro6 (mmToM ((200.3 : ℚ) : ℝ)) = 200300 := by
  have h : mmToM ((200.3 : ℚ) : ℝ) * 10 ^ 6 = ((200300 : ℤ) : ℝ) := by
    unfold mmToM
    push_cast
    norm_num
  unfold micro6
  rw [h, round_intCast]

theorem micro6_mm_300 : micro6 (mmToM ((300 : ℚ) : ℝ)) = 300000 := by
  have h : mmToM ((300 : ℚ) : ℝ) * 10 ^ 6 = ((300000 : ℤ) : ℝ) := by
    unfold mmToM
    push_cast
    norm_num
  unfold micro6
  rw [h, round_intCast]

/-- `np.radians(10.2)` printed to 6 decimals is `0.178024`
(10.2·π/180 = 0.1780235837…). -/
theorem micro6_deg_102 : micro6 (degToRad ((10.2 : ℚ) : ℝ)) = 178024 := by
  have hlo : (3.141592 : ℝ) < Real.pi := Real.pi_gt_d6
  have hhi : Real.pi < 3.14159265358979323847 := Real.pi_lt_d20
  unfold micro6 degToRad
  rw [round_eq, Int.floor_eq_iff]
  constructor
  · push_cast
    linarith
  · push_cast
    linarith

/-- `np.radians(20.5)` printed to 6 decimals is `0.357792`
(20.5·π/180 = 0.3577924966…). -/
theorem micro6_deg_205 : micro6 (degToRad ((20.5 : ℚ) : ℝ)) = 357792 := by
  have hlo : (3.141592 : ℝ) < Real.pi := Real.pi_gt_d6
  have hhi : Real.pi < 3.14159265358979323847 := Real.pi_lt_d20
  unfold micro6 degToRad
  rw [round_eq, Int.floor_eq_iff]
  constructor
  · push_cast
    linarith
  · push_cast
    linarith

/-- `np.radians(30.1)` printed to 6 decimals is `0.525344`
(30.1·π/180 = 0.5253441048…). -/
theorem micro6_deg_301 : micro6 (degToRad ((30.1 : ℚ) : ℝ)) = 525344 := by
  have hlo : (3.141592 : ℝ) < Real.pi := Real.pi_gt_d6
  have hhi : Real.pi < 3.14159265358979323847 := Real.pi_lt_d20
  unfold micro6 degToRad
  rw [round_eq, Int.floor_eq_iff]
  constructor
  · push_cast
    linarith
  · push_cast
    linarith

/-- The line actually recorded for the operator input
`100.5 200.3 300.0 10.2 20.5 30.1`. -/
theorem recordedLine_example :
    recordedLine 100.5 200.3 300 10.2 20.5 30.1 =
      "0.100500,0.200300,0.300000,0.178024,0.357792,0.525344" := by
  unfold recordedLine convertedMicros
  rw [micro6_mm_1005, micro6_mm_2003, micro6_mm_300,
    micro6_deg_102, micro6_deg_205, micro6_deg_301]
  decide

/-- C2 counterexample: the pose input `100.5 200.3 300.0 10.2 20.5 30.1`
is NOT recorded as the claimed line — the actual 4th field is `0.178024`
(not `0.178023`: 10.2° = 0.1780235837… rad rounds up) and the actual 6th
field is `0.525344` (not `0.525466`: 30.1° = 0.5253441048… rad). -/
theorem c2_roundtrip_counterexample :
    recordedLine 100.5 200.3 300 10.2 20.5 30.1 ≠
      "0.100500,0.200300,0.300000,0.178023,0.357792,0.525466" := by
  rw [recordedLine_example]
  decide

/-- C2 amended: for every accepted pose, the recorded line is the
comma-separated fixed 6-decimal rendering of the translations divided by
1000 and the rotations multiplied by π/180; in particular the input
`100.5 200.3 300.0 10.2 20.5 30.1` is recorded as
`0.100500,0.200300,0.300000,0.178024,0.357792,0.525344`. -/
theorem c2_pose_recording_amended :
    (∀ x y z rx ry rz : ℚ,
      recordedLine x y z rx ry rz =
        String.intercalate ","
          ([round ((x : ℝ) / 1000 * 10 ^ 6), round ((y : ℝ) / 1000 * 10 ^ 6),
            round ((z : ℝ) / 1000 * 10 ^ 6),
            round ((rx : ℝ) * (Real.pi / 180) * 10 ^ 6),
            round ((ry : ℝ) * (Real.pi / 180) * 10 ^ 6),
            round ((rz : ℝ) * (Real.pi / 180) * 10 ^ 6)].map renderMicro)) ∧
    recordedLine 100.5 200.3 300 10.2 20.5 30.1 =
      "0.100500,0.200300,0.300000,0.178024,0.357792,0.525344" :=
  ⟨fun _ _ _ _ _ _ => rfl, recordedLine_example⟩

end HandEyeCalib
